import Mathlib

/- Verification of the routing and relay logic of the reverse proxy
   (reverse_proxy.py) against its natural-language specification.

   Modelling conventions:
   * Byte buffers are modelled as lists of characters, one character per
     byte (the repository only ever manipulates ASCII byte strings).
   * The JSON parser is an external library collaborator; it is modelled
     as an explicit parameter of type Bytes -> Option Json supplied to the
     resolver, so every theorem quantifies over the parser's behaviour.
   * Python exceptions are modelled with Option / Except; the broad
     except blocks of the source become explicit catch branches.
   * The socket relays are modelled as pure functions from read schedules
     (the successive results that recv would return on each socket) to the
     trace of forwarded chunks; read errors are an explicit outcome. -/

/-- Byte buffers, one character per byte. -/
abbrev Bytes := List Char

/-- Model of the Python expression data.split(sep, 1) followed by unpacking
into exactly two variables: the pieces before and after the first occurrence
of sep, or none when sep does not occur (the unpacking then raises). -/
def splitFirst (sep : Bytes) : Bytes → Option (Bytes × Bytes)
  | [] => if sep = [] then some ([], []) else none
  | c :: rest =>
    if sep.isPrefixOf (c :: rest) then some ([], (c :: rest).drop sep.length)
    else
      match splitFirst sep rest with
      | some (a, b) => some (c :: a, b)
      | none => none

/-- Helper for splitting: attach a character to the head piece of an
already-computed split. -/
def consHead (x : Char) : List Bytes → List Bytes
  | [] => [[x]]
  | y :: ys => (x :: y) :: ys

/-- Model of Python headers.split applied with the two-byte CRLF separator,
as used to cut the header block into lines. -/
def splitCRLF : Bytes → List Bytes
  | [] => [[]]
  | '\r' :: '\n' :: rest => [] :: splitCRLF rest
  | c :: rest => consHead c (splitCRLF rest)

/-- Model of Python str.split applied with a single-character separator,
as used by the Host header parser with the colon separator. -/
def splitOnChar (c : Char) : Bytes → List Bytes
  | [] => [[]]
  | x :: xs => if x = c then [] :: splitOnChar c xs else consHead x (splitOnChar c xs)

/-- The whitespace characters removed by Python str.strip. -/
def isPySpace (c : Char) : Bool :=
  c = ' ' || c = '\t' || c = '\n' || c = '\r' || c = '\x0b' || c = '\x0c'

/-- Model of Python str.strip with no argument. -/
def pyStrip (l : Bytes) : Bytes :=
  ((l.dropWhile isPySpace).reverse.dropWhile isPySpace).reverse

/-- Numeric value of a digit string, most significant digit first. -/
def natOfDigits (l : List Char) : Nat :=
  l.foldl (fun acc c => 10 * acc + (c.toNat - '0'.toNat)) 0

/-- Shape check for the digit part accepted by Python int: one or more
ASCII digits, with single underscores allowed only between digit groups. -/
def digitGroupsOk (l : List Char) : Bool :=
  (splitOnChar '_' l).all fun g => !g.isEmpty && g.all Char.isDigit

/-- Model of Python int applied to an already-stripped string: an optional
sign followed by digits (with grouping underscores); none models the
ValueError raised on any other input. -/
def pyIntCore (l : List Char) : Option Int :=
  match l with
  | '+' :: rest =>
    if digitGroupsOk rest then some ((natOfDigits (rest.filter (fun c => c != '_')) : Int))
    else none
  | '-' :: rest =>
    if digitGroupsOk rest then some (-((natOfDigits (rest.filter (fun c => c != '_'))) : Int))
    else none
  | _ =>
    if digitGroupsOk l then some ((natOfDigits (l.filter (fun c => c != '_')) : Int))
    else none

/-- Model of Python int applied to a string: leading and trailing
whitespace is ignored, then the stripped text must be a signed digit
string. -/
def pyInt (l : List Char) : Option Int := pyIntCore (pyStrip l)

/-- JSON values as produced by the external JSON library. Python None
(both the JSON literal null and the result of dict.get on a missing key)
is represented by the null constructor; numbers are restricted to the
integers, which is all the claims need. -/
inductive Json where
  | null : Json
  | bool (b : Bool) : Json
  | num (n : Int) : Json
  | str (s : String) : Json
  | arr (elems : List Json) : Json
  | obj (fields : List (String × Json)) : Json

/-- Python equality between a decoded JSON value and a configuration
string: only an equal JSON string compares equal. -/
def jsonEqStr : Json → String → Bool
  | Json.str t, s => t == s
  | _, _ => false

/-- Whether a JSON value is a key/value object (a Python dict). -/
def jsonIsObj : Json → Bool
  | Json.obj _ => true
  | _ => false

/-- Model of Python dict.get on a decoded JSON object: the value stored at
the key, or None (null) when the key is absent. -/
def dictGet (kvs : List (String × Json)) (k : String) : Json :=
  match kvs.find? (fun kv => kv.1 == k) with
  | some kv => kv.2
  | none => Json.null

/-- One routing rule of the Endpoint Table, as loaded from configuration
(the per-endpoint dictionary in API_ENDPOINTS). -/
structure EndpointRule where
  match_field : String
  match_value : String
  target_host : String
  target_port : Int
  deriving DecidableEq

/-- The Endpoint Table: logical endpoint names paired with their rules, in
insertion order (Python dicts iterate in insertion order). -/
abbrev EndpointTable := List (String × EndpointRule)

/-- Model of the Python membership test pat in data on byte strings:
scan every suffix for pat as a leading block. -/
def containsSeq (pat : Bytes) : Bytes → Bool
  | [] => pat.isPrefixOf []
  | c :: rest => pat.isPrefixOf (c :: rest) || containsSeq pat rest

/-- The literal marker the Stream Classifier looks for. -/
def streamMarker : Bytes := "Transfer-Encoding: chunked".toList

/-- Embedding of is_stream: true when the buffer contains the literal
chunked transfer-encoding marker. -/
def is_stream (data : Bytes) : Bool := containsSeq streamMarker data

/-- Embedding of parse_host_header: decode the raw header line, split it
on every colon, take the field after the first colon as the host and the
field after the second colon (when present) as the port, defaulting to
port 80. Missing fields (IndexError) and non-numeric ports (ValueError)
are caught by the except block and yield none. -/
def parse_host_header (host_header : Bytes) : Option (String × Int) :=
  match splitOnChar ':' host_header with
  | _ :: h :: rest =>
    match rest with
    | [] => some (String.mk (pyStrip h), 80)
    | p :: _ =>
      match pyInt p with
      | some n => some (String.mk (pyStrip h), n)
      | none => none
  | _ => none

/-- Embedding of find_target_endpoint: walk the Endpoint Table in
insertion order and return the target of the first rule whose match_field
is stored in the payload with value match_value. On a payload that is not
a dict, the attribute access payload.get raises (modelled as error) as
soon as the first rule is examined; an empty table returns the no-match
pair before touching the payload. -/
def find_target_endpoint (payload : Json) : EndpointTable → Except Unit (Option (String × Int))
  | [] => Except.ok none
  | (_, cfg) :: rest =>
    match payload with
    | Json.obj kvs =>
      if jsonEqStr (dictGet kvs cfg.match_field) cfg.match_value then
        Except.ok (some (cfg.target_host, cfg.target_port))
      else find_target_endpoint payload rest
    | _ => Except.error ()

/-- The byte literal the resolver uses to recognise a Host header line. -/
def hostMarker : Bytes := "Host: ".toList

/-- Embedding of the next(...) expression in determine_target_endpoint:
the first header line starting with the Host marker, defaulting to the
empty byte string. -/
def findHostLine (hdrs : Bytes) : Bytes :=
  ((splitCRLF hdrs).find? (fun line => hostMarker.isPrefixOf line)).getD []

/-- The CRLF CRLF blank-line delimiter. -/
def crlfcrlf : Bytes := "\r\n\r\n".toList

/-- Embedding of determine_target_endpoint. jsonLoads is the external
JSON library, returning none where json.loads would raise. The bare
except of the source catches the failed header/body unpacking, the JSON
parse error and the attribute error raised inside find_target_endpoint,
all degrading to none; none also models the Python pair (None, None). -/
def determine_target_endpoint (jsonLoads : Bytes → Option Json) (table : EndpointTable)
    (data : Bytes) (is_streaming : Bool) : Option (String × Int) :=
  if is_streaming then none
  else
    match splitFirst crlfcrlf data with
    | none => none
    | some (hdrs, payload_str) =>
      match jsonLoads payload_str with
      | none => none
      | some payload =>
        let orig := parse_host_header (findHostLine hdrs)
        match find_target_endpoint payload table with
        | Except.error _ => none
        | Except.ok none => orig
        | Except.ok (some (th, tp)) => if th = "" then orig else some (th, tp)

/-- One observable forwarding action of a relay. -/
inductive RelayEvent where
  | toBackend (b : Bytes) : RelayEvent
  | toClient (b : Bytes) : RelayEvent
  deriving DecidableEq

/-- Embedding of one while loop of handle_regular_http: keep reading from
the given schedule and forwarding until the first zero-length read. -/
def recvLoopForward : List Bytes → List Bytes
  | [] => []
  | d :: rest => if d = [] then [] else d :: recvLoopForward rest

/-- Embedding of handle_regular_http (the Bounded Relay): drain the client
into the backend until the client read returns empty, then drain the
backend into the client until the backend read returns empty. -/
def handle_regular_http (clientReads backendReads : List Bytes) : List RelayEvent :=
  (recvLoopForward clientReads).map RelayEvent.toBackend ++
    (recvLoopForward backendReads).map RelayEvent.toClient

/-- Outcome of one socket recv call: a chunk of bytes (empty means the
peer closed) or an I/O error. -/
inductive ReadRes where
  | ok (b : Bytes) : ReadRes
  | err : ReadRes
  deriving DecidableEq

/-- Embedding of handle_streaming (the Streaming Relay): alternately read
from the client and forward to the backend, then read from the backend and
forward to the client; break on the first empty read or error on either
side (the except block). An exhausted schedule means recv would block
forever, so the trace so far is returned. -/
def handle_streaming : List ReadRes → List ReadRes → List RelayEvent
  | [], _ => []
  | ReadRes.err :: _, _ => []
  | ReadRes.ok c :: _, [] => if c = [] then [] else [RelayEvent.toBackend c]
  | ReadRes.ok c :: _, ReadRes.err :: _ => if c = [] then [] else [RelayEvent.toBackend c]
  | ReadRes.ok c :: cs, ReadRes.ok r :: bs =>
    if c = [] then []
    else
      RelayEvent.toBackend c ::
        (if r = [] then [] else RelayEvent.toClient r :: handle_streaming cs bs)

/-- Projection of a relay event onto the client-to-backend direction. -/
def eventBytesToBackend : RelayEvent → Option Bytes
  | RelayEvent.toBackend b => some b
  | _ => none

/-- Projection of a relay event onto the backend-to-client direction. -/
def eventBytesToClient : RelayEvent → Option Bytes
  | RelayEvent.toClient b => some b
  | _ => none

/-- All bytes a trace forwards to the backend, in order. -/
def bytesToBackend (tr : List RelayEvent) : Bytes := (tr.filterMap eventBytesToBackend).flatten

/-- All bytes a trace forwards to the client, in order. -/
def bytesToClient (tr : List RelayEvent) : Bytes := (tr.filterMap eventBytesToClient).flatten

/-- Observable outcome of one run of the Connection Handler. -/
structure HandlerResult where
  dialAttempts : Nat
  sentInitial : Bool
  trace : List RelayEvent
  clientClosed : Bool
  deriving DecidableEq

/-- Embedding of handle_client: read the initial data (given here as the
result of the first recv), classify, resolve, dial (dialOk says whether
connect succeeds), forward the initial bytes and run the relay chosen by
the classification. The finally block closes the client socket on every
path; the except block confines every failure to this handler, so the
function is total. -/
def handle_client (jsonLoads : Bytes → Option Json) (table : EndpointTable) (data : Bytes)
    (dialOk : Bool) (cregular bregular : List Bytes)
    (cstream bstream : List ReadRes) : HandlerResult :=
  if data = [] then ⟨0, false, [], true⟩
  else
    let streaming := is_stream data
    match determine_target_endpoint jsonLoads table data streaming with
    | none => ⟨0, false, [], true⟩
    | some (th, _tp) =>
      if th = "" then ⟨0, false, [], true⟩
      else if dialOk = false then ⟨1, false, [], true⟩
      else if streaming then ⟨1, true, handle_streaming cstream bstream, true⟩
      else ⟨1, true, handle_regular_http cregular bregular, true⟩

/-- Transcribed from the spec: a rule matches a parsed document when its
matchField is present in the document with value equal to matchValue. -/
def specRuleMatches (kvs : List (String × Json)) (cfg : EndpointRule) : Bool :=
  match kvs.find? (fun kv => kv.1 == cfg.match_field) with
  | some kv => jsonEqStr kv.2 cfg.match_value
  | none => false

/-- Transcribed from the spec: the first rule of the table, in insertion
order, that matches the parsed document. -/
def specFirstMatch (table : EndpointTable) (kvs : List (String × Json)) : Option EndpointRule :=
  (table.find? (fun e => specRuleMatches kvs e.2)).map Prod.snd

/-- Transcribed from the spec: the trace the Streaming Relay should
produce when the client yields the first list of chunks before closing or
erroring and the backend the second: strict alternation, each chunk
forwarded to the opposite side in order, stopping at whichever side ends
first (with one extra client chunk forwarded when the backend ends). -/
def specStreamTrace : List Bytes → List Bytes → List RelayEvent
  | [], _ => []
  | c :: _, [] => [RelayEvent.toBackend c]
  | c :: cs, b :: bs => RelayEvent.toBackend c :: RelayEvent.toClient b :: specStreamTrace cs bs

theorem isPrefixOf_eq_true_iff (pat l : Bytes) :
    pat.isPrefixOf l = true ↔ ∃ t, l = pat ++ t := by
  induction pat generalizing l with
  | nil => simp
  | cons a as ih =>
    cases l with
    | nil => simp
    | cons b bs =>
      simp only [List.isPrefixOf, Bool.and_eq_true, beq_iff_eq, ih, List.cons_append,
        List.cons.injEq]
      constructor
      · rintro ⟨rfl, t, rfl⟩; exact ⟨t, rfl, rfl⟩
      · rintro ⟨t, rfl, rfl⟩; exact ⟨rfl, t, rfl⟩

theorem containsSeq_eq_true_iff (pat l : Bytes) :
    containsSeq pat l = true ↔ ∃ s t, l = s ++ pat ++ t := by
  induction l with
  | nil =>
    simp only [containsSeq, isPrefixOf_eq_true_iff]
    constructor
    · rintro ⟨t, ht⟩; exact ⟨[], t, by simpa using ht⟩
    · rintro ⟨s, t, hst⟩
      have hs : s = [] ∧ pat = [] ∧ t = [] := by simpa using hst.symm
      exact ⟨[], by simp [hs.2.1]⟩
  | cons c rest ih =>
    simp only [containsSeq, Bool.or_eq_true]
    constructor
    · intro h
      rcases h with h | h
      · obtain ⟨t, ht⟩ := (isPrefixOf_eq_true_iff _ _).mp h
        exact ⟨[], t, by simpa using ht⟩
      · obtain ⟨s, t, ht⟩ := ih.mp h
        exact ⟨c :: s, t, by simp [ht]⟩
    · rintro ⟨s, t, hst⟩
      cases s with
      | nil =>
        exact Or.inl ((isPrefixOf_eq_true_iff _ _).mpr ⟨t, by simpa using hst⟩)
      | cons c2 s2 =>
        have h2 : c = c2 ∧ rest = s2 ++ pat ++ t := by
          simpa using hst
        exact Or.inr (ih.mpr ⟨s2, t, h2.2⟩)

/-- Claim C2: the Stream Classifier returns true exactly when the byte
sequence contains the literal substring Transfer-Encoding: chunked. The
classifier is a total function by construction (purity, determinism and
never failing hold definitionally in the embedding). -/
theorem c2_stream_classifier_substring (data : Bytes) :
    is_stream data = true ↔ ∃ s t, data = s ++ streamMarker ++ t :=
  containsSeq_eq_true_iff streamMarker data

/-- Claim C8: for every streaming-classified input the Endpoint Resolver
returns none, regardless of the buffer contents, the table and the JSON
parser. -/
theorem c8_streaming_resolution_none (jsonLoads : Bytes → Option Json)
    (table : EndpointTable) (data : Bytes) :
    determine_target_endpoint jsonLoads table data true = none := rfl

/-- Claim C6: on the regular path, if the CRLF CRLF delimiter is absent,
or the body fails to parse as a structured key/value document (the JSON
parse raises), resolution returns none. The resolver is a total function
in the embedding, so no exception can propagate to the caller; the bare
except of the source is the catch branches of the definition. -/
theorem c6_resolver_malformed_none (jsonLoads : Bytes → Option Json)
    (table : EndpointTable) (data : Bytes) :
    (splitFirst crlfcrlf data = none →
      determine_target_endpoint jsonLoads table data false = none) ∧
    (∀ hdrs body, splitFirst crlfcrlf data = some (hdrs, body) → jsonLoads body = none →
      determine_target_endpoint jsonLoads table data false = none) := by
  constructor
  · intro h
    simp [determine_target_endpoint, h]
  · intro hdrs body h1 h2
    simp [determine_target_endpoint, h1, h2]

theorem c6_resolver_malformed_none_witness :
    determine_target_endpoint (fun _ => none) [] ("GET /x".toList) false = none ∧
    determine_target_endpoint (fun _ => none) [] ("A\r\n\r\nB".toList) false = none :=
  ⟨(c6_resolver_malformed_none (fun _ => none) [] ("GET /x".toList)).1 (by decide),
   (c6_resolver_malformed_none (fun _ => none) [] ("A\r\n\r\nB".toList)).2
     ("A".toList) ("B".toList) (by decide) rfl⟩

/-- Claim C10: on the regular path, when the body parses as JSON that is
not a key/value object, a non-empty Endpoint Table makes resolution
return none (the attribute access raised by the first rule is caught),
without consulting the Host header; an empty table skips the payload
entirely and resolution falls back to the Host header. -/
theorem c10_non_object_payload (jsonLoads : Bytes → Option Json) (table : EndpointTable)
    (data hdrs body : Bytes) (j : Json)
    (h1 : splitFirst crlfcrlf data = some (hdrs, body))
    (h2 : jsonLoads body = some j) (h3 : jsonIsObj j = false) :
    (table ≠ [] → determine_target_endpoint jsonLoads table data false = none) ∧
    (table = [] → determine_target_endpoint jsonLoads table data false =
      parse_host_header (findHostLine hdrs)) := by
  constructor
  · intro hne
    cases htab : table with
    | nil => exact absurd htab hne
    | cons e rest =>
      cases j <;> simp_all [determine_target_endpoint, find_target_endpoint, jsonIsObj]
  · intro he
    subst he
    simp [determine_target_endpoint, h1, h2, find_target_endpoint]

theorem c10_non_object_payload_witness :
    determine_target_endpoint (fun _ => some (Json.arr []))
      [("e1", EndpointRule.mk "f" "v" "h" 1)] ("Host: hh:7\r\n\r\nB".toList) false = none ∧
    determine_target_endpoint (fun _ => some (Json.arr [])) []
      ("Host: hh:7\r\n\r\nB".toList) false =
      parse_host_header (findHostLine ("Host: hh:7".toList)) :=
  ⟨(c10_non_object_payload (fun _ => some (Json.arr []))
      [("e1", EndpointRule.mk "f" "v" "h" 1)] ("Host: hh:7\r\n\r\nB".toList)
      ("Host: hh:7".toList) ("B".toList) (Json.arr []) (by decide) rfl rfl).1 (by simp),
   (c10_non_object_payload (fun _ => some (Json.arr [])) []
      ("Host: hh:7\r\n\r\nB".toList)
      ("Host: hh:7".toList) ("B".toList) (Json.arr []) (by decide) rfl rfl).2 rfl⟩

theorem recvLoopForward_eq (chunks rest : List Bytes) (h : ∀ c ∈ chunks, c ≠ []) :
    recvLoopForward (chunks ++ [] :: rest) = chunks := by
  induction chunks with
  | nil => simp [recvLoopForward]
  | cons c cs ih =>
    have hc : c ≠ [] := h c (List.mem_cons_self c cs)
    simp [recvLoopForward, hc, ih (fun x hx => h x (List.mem_cons_of_mem c hx))]

theorem filterMap_backend_of_backend (l : List Bytes) :
    List.filterMap (eventBytesToBackend ∘ RelayEvent.toBackend) l = l := by
  induction l with
  | nil => rfl
  | cons x xs ih => simp [eventBytesToBackend, ih, Function.comp]

theorem filterMap_backend_of_client (l : List Bytes) :
    List.filterMap (eventBytesToBackend ∘ RelayEvent.toClient) l = [] := by
  induction l with
  | nil => rfl
  | cons x xs ih => simp [eventBytesToBackend, ih, Function.comp]

theorem filterMap_client_of_backend (l : List Bytes) :
    List.filterMap (eventBytesToClient ∘ RelayEvent.toBackend) l = [] := by
  induction l with
  | nil => rfl
  | cons x xs ih => simp [eventBytesToClient, ih, Function.comp]

theorem filterMap_client_of_client (l : List Bytes) :
    List.filterMap (eventBytesToClient ∘ RelayEvent.toClient) l = l := by
  induction l with
  | nil => rfl
  | cons x xs ih => simp [eventBytesToClient, ih, Function.comp]

/-- Claim C3: the Bounded Relay, fed the client chunks (all non-empty)
followed by a zero-length read and then the backend chunks followed by a
zero-length read, produces exactly the client bytes towards the backend in
original order, then exactly the backend bytes towards the client in
original order; the trace equality shows every client-to-backend write
precedes every backend-to-client write, and the byte-level conjuncts give
the exact forwarded bytes in each direction. -/
theorem c3_bounded_relay_trace (cchunks bchunks restC restB : List Bytes)
    (hc : ∀ c ∈ cchunks, c ≠ []) (hb : ∀ b ∈ bchunks, b ≠ []) :
    handle_regular_http (cchunks ++ [] :: restC) (bchunks ++ [] :: restB) =
      cchunks.map RelayEvent.toBackend ++ bchunks.map RelayEvent.toClient ∧
    bytesToBackend (handle_regular_http (cchunks ++ [] :: restC) (bchunks ++ [] :: restB)) =
      cchunks.flatten ∧
    bytesToClient (handle_regular_http (cchunks ++ [] :: restC) (bchunks ++ [] :: restB)) =
      bchunks.flatten := by
  have htr : handle_regular_http (cchunks ++ [] :: restC) (bchunks ++ [] :: restB) =
      cchunks.map RelayEvent.toBackend ++ bchunks.map RelayEvent.toClient := by
    simp [handle_regular_http, recvLoopForward_eq _ _ hc, recvLoopForward_eq _ _ hb]
  refine ⟨htr, ?_, ?_⟩
  · rw [htr]
    simp [bytesToBackend, List.filterMap_append, filterMap_backend_of_backend,
      filterMap_backend_of_client]
  · rw [htr]
    simp [bytesToClient, List.filterMap_append, filterMap_client_of_backend,
      filterMap_client_of_client]

theorem c3_bounded_relay_trace_witness :
    handle_regular_http ([['a'], ['b', 'c']] ++ [] :: []) ([['d']] ++ [] :: []) =
      [['a'], ['b', 'c']].map RelayEvent.toBackend ++ [['d']].map RelayEvent.toClient ∧
    bytesToBackend (handle_regular_http ([['a'], ['b', 'c']] ++ [] :: [])
      ([['d']] ++ [] :: [])) = [['a'], ['b', 'c']].flatten ∧
    bytesToClient (handle_regular_http ([['a'], ['b', 'c']] ++ [] :: [])
      ([['d']] ++ [] :: [])) = [['d']].flatten :=
  c3_bounded_relay_trace [['a'], ['b', 'c']] [['d']] [] [] (by decide) (by decide)

/-- Claim C4: the Streaming Relay, fed non-empty chunks from each side
followed by a terminator (zero-length read or error), produces exactly the
alternating trace in which every chunk that was read is forwarded to the
opposite side in order; nothing after the first terminator on either side
is consumed (the tails after the terminators are arbitrary), and no chunk
that was read and due for forwarding is dropped. Read schedules model
every recv outcome, with errors surfacing at the reads. -/
theorem c4_streaming_relay_trace (cchunks bchunks : List Bytes) (cterm bterm : ReadRes)
    (restC restB : List ReadRes)
    (hc : ∀ c ∈ cchunks, c ≠ []) (hb : ∀ b ∈ bchunks, b ≠ [])
    (hct : cterm = ReadRes.ok [] ∨ cterm = ReadRes.err)
    (hbt : bterm = ReadRes.ok [] ∨ bterm = ReadRes.err) :
    handle_streaming (cchunks.map ReadRes.ok ++ cterm :: restC)
      (bchunks.map ReadRes.ok ++ bterm :: restB) = specStreamTrace cchunks bchunks := by
  revert hc
  revert hb
  revert bchunks
  induction cchunks with
  | nil =>
    intro bchunks hb hc
    rcases hct with rfl | rfl
    · cases bchunks with
      | nil => rcases hbt with rfl | rfl <;> simp [handle_streaming, specStreamTrace]
      | cons b bs => simp [handle_streaming, specStreamTrace]
    · cases bchunks with
      | nil => rcases hbt with rfl | rfl <;> simp [handle_streaming, specStreamTrace]
      | cons b bs => simp [handle_streaming, specStreamTrace]
  | cons c cs ih =>
    intro bchunks hb hc
    have hcne : c ≠ [] := hc c (List.mem_cons_self _ _)
    cases bchunks with
    | nil =>
      rcases hbt with rfl | rfl <;> simp [handle_streaming, specStreamTrace, hcne]
    | cons b bs =>
      have hbne : b ≠ [] := hb b (List.mem_cons_self _ _)
      have ihx := ih bs (fun x hx => hb x (List.mem_cons_of_mem _ hx))
        (fun x hx => hc x (List.mem_cons_of_mem _ hx))
      simp [handle_streaming, specStreamTrace, hcne, hbne, ihx]

theorem c4_streaming_relay_trace_witness :
    handle_streaming ([['a', 'b']].map ReadRes.ok ++ ReadRes.ok [] :: [])
      ([['c']].map ReadRes.ok ++ ReadRes.err :: []) = specStreamTrace [['a', 'b']] [['c']] :=
  c4_streaming_relay_trace [['a', 'b']] [['c']] (ReadRes.ok []) ReadRes.err [] []
    (by decide) (by decide) (Or.inl rfl) (Or.inr rfl)

theorem splitOnChar_not_mem (c : Char) (l : Bytes) (h : c ∉ l) :
    splitOnChar c l = [l] := by
  induction l with
  | nil => rfl
  | cons x xs ih =>
    have hx : ¬ x = c := fun hxc => h (hxc ▸ List.mem_cons_self x xs)
    simp [splitOnChar, hx, ih (fun hm => h (List.mem_cons_of_mem x hm)), consHead]

theorem splitOnChar_append (c : Char) (l₁ l₂ : Bytes) (h : c ∉ l₁) :
    splitOnChar c (l₁ ++ c :: l₂) = l₁ :: splitOnChar c l₂ := by
  induction l₁ with
  | nil => simp [splitOnChar]
  | cons x xs ih =>
    have hx : ¬ x = c := fun hxc => h (hxc ▸ List.mem_cons_self x xs)
    simp [splitOnChar, hx, ih (fun hm => h (List.mem_cons_of_mem x hm)), consHead]

theorem pyStrip_cons_space (l : Bytes) : pyStrip (' ' :: l) = pyStrip l := by
  simp [pyStrip, List.dropWhile_cons, isPySpace]

/-- Claim C5: the Host Header Parser, on a line of the shape Host: h or
Host: h:p with colon-free h and p, returns the stripped host together with
the parsed port (default 80 when no port segment exists); a non-numeric
port yields none, and a line with no colon at all (including the empty
line used when no Host line exists) raises the index error internally and
yields none. -/
theorem c5_parse_host_header_spec :
    (∀ hs : Bytes, ':' ∉ hs →
      parse_host_header (hostMarker ++ hs) = some (String.mk (pyStrip hs), 80)) ∧
    (∀ hs p : Bytes, ∀ n : Int, ':' ∉ hs → ':' ∉ p → pyInt p = some n →
      parse_host_header (hostMarker ++ hs ++ ':' :: p) = some (String.mk (pyStrip hs), n)) ∧
    (∀ hs p : Bytes, ':' ∉ hs → ':' ∉ p → pyInt p = none →
      parse_host_header (hostMarker ++ hs ++ ':' :: p) = none) ∧
    (∀ line : Bytes, ':' ∉ line → parse_host_header line = none) := by
  refine ⟨?_, ?_, ?_, ?_⟩
  · intro hs hmem
    have hsp : ':' ∉ (' ' :: hs) := by
      intro hm
      rcases List.mem_cons.mp hm with h1 | h1
      · exact absurd h1 (by decide)
      · exact hmem h1
    have e1 : hostMarker ++ hs = "Host".toList ++ ':' :: (' ' :: hs) := rfl
    rw [e1]
    unfold parse_host_header
    rw [splitOnChar_append ':' ("Host".toList) (' ' :: hs) (by decide),
      splitOnChar_not_mem ':' (' ' :: hs) hsp]
    simp [pyStrip_cons_space]
  · intro hs p n hmem hp hn
    have hsp : ':' ∉ (' ' :: hs) := by
      intro hm
      rcases List.mem_cons.mp hm with h1 | h1
      · exact absurd h1 (by decide)
      · exact hmem h1
    have e1 : hostMarker ++ hs ++ ':' :: p =
        "Host".toList ++ ':' :: ((' ' :: hs) ++ ':' :: p) := rfl
    rw [e1]
    unfold parse_host_header
    rw [splitOnChar_append ':' ("Host".toList) ((' ' :: hs) ++ ':' :: p) (by decide),
      splitOnChar_append ':' (' ' :: hs) p hsp, splitOnChar_not_mem ':' p hp]
    simp [hn, pyStrip_cons_space]
  · intro hs p hmem hp hn
    have hsp : ':' ∉ (' ' :: hs) := by
      intro hm
      rcases List.mem_cons.mp hm with h1 | h1
      · exact absurd h1 (by decide)
      · exact hmem h1
    have e1 : hostMarker ++ hs ++ ':' :: p =
        "Host".toList ++ ':' :: ((' ' :: hs) ++ ':' :: p) := rfl
    rw [e1]
    unfold parse_host_header
    rw [splitOnChar_append ':' ("Host".toList) ((' ' :: hs) ++ ':' :: p) (by decide),
      splitOnChar_append ':' (' ' :: hs) p hsp, splitOnChar_not_mem ':' p hp]
    simp [hn]
  · intro line hmem
    unfold parse_host_header
    rw [splitOnChar_not_mem ':' line hmem]

theorem c5_parse_host_header_spec_witness :
    parse_host_header (hostMarker ++ "example.com".toList) = some ("example.com", 80) ∧
    parse_host_header (hostMarker ++ "example.com".toList ++ ':' :: "9090".toList) =
      some ("example.com", 9090) ∧
    parse_host_header (hostMarker ++ "example.com".toList ++ ':' :: "port".toList) = none ∧
    parse_host_header [] = none := by
  have h1 := c5_parse_host_header_spec.1 ("example.com".toList) (by decide)
  have h2 := c5_parse_host_header_spec.2.1 ("example.com".toList) ("9090".toList) 9090
    (by decide) (by decide) (by decide)
  have h3 := c5_parse_host_header_spec.2.2.1 ("example.com".toList) ("port".toList)
    (by decide) (by decide) (by decide)
  have h4 := c5_parse_host_header_spec.2.2.2 [] (by decide)
  exact ⟨h1.trans (by decide), h2.trans (by decide), h3, h4⟩

theorem specRuleMatches_eq (kvs : List (String × Json)) (cfg : EndpointRule) :
    specRuleMatches kvs cfg = jsonEqStr (dictGet kvs cfg.match_field) cfg.match_value := by
  unfold specRuleMatches dictGet
  cases kvs.find? (fun kv => kv.1 == cfg.match_field) <;> simp [jsonEqStr]

/-- Claim C7: rule evaluation is deterministic and ordered by table
insertion order: whenever the table decomposes as earlier non-matching
rules, a first matching rule, and a tail containing at least one further
matching rule, find_target_endpoint returns the target of the first
matching rule. -/
theorem c7_first_rule_wins (kvs : List (String × Json)) (t1 t2 : EndpointTable)
    (e : String × EndpointRule)
    (hfirst : ∀ x ∈ t1, specRuleMatches kvs x.2 = false)
    (hmatch : specRuleMatches kvs e.2 = true)
    (hsecond : ∃ x ∈ t2, specRuleMatches kvs x.2 = true) :
    find_target_endpoint (Json.obj kvs) (t1 ++ e :: t2) =
      Except.ok (some (e.2.target_host, e.2.target_port)) := by
  induction t1 with
  | nil =>
    have hm := hmatch
    rw [specRuleMatches_eq] at hm
    cases e with
    | mk ne cfg => simp [find_target_endpoint, hm]
  | cons x xs ih =>
    have hx := hfirst x (List.mem_cons_self _ _)
    rw [specRuleMatches_eq] at hx
    have ih2 := ih (fun y hy => hfirst y (List.mem_cons_of_mem _ hy))
    cases x with
    | mk nx cfgx => simpa [find_target_endpoint, hx] using ih2

theorem c7_first_rule_wins_witness :
    find_target_endpoint (Json.obj [("f", Json.str "v")])
      ([] ++ ("e1", EndpointRule.mk "f" "v" "h1" 1) ::
        [("e2", EndpointRule.mk "f" "v" "h2" 2)]) =
      Except.ok (some ((EndpointRule.mk "f" "v" "h1" 1).target_host,
        (EndpointRule.mk "f" "v" "h1" 1).target_port)) :=
  c7_first_rule_wins [("f", Json.str "v")] [] [("e2", EndpointRule.mk "f" "v" "h2" 2)]
    ("e1", EndpointRule.mk "f" "v" "h1" 1)
    (by intro x hx; cases hx) (by decide) (by decide)

theorem find_target_endpoint_obj (kvs : List (String × Json)) (table : EndpointTable) :
    find_target_endpoint (Json.obj kvs) table =
      Except.ok ((specFirstMatch table kvs).map
        (fun cfg => (cfg.target_host, cfg.target_port))) := by
  induction table with
  | nil => simp [find_target_endpoint, specFirstMatch]
  | cons x xs ih =>
    cases x with
    | mk nx cfgx =>
      cases hx : jsonEqStr (dictGet kvs cfgx.match_field) cfgx.match_value with
      | true =>
        simp [find_target_endpoint, hx, specFirstMatch, List.find?_cons, specRuleMatches_eq]
      | false =>
        simp [find_target_endpoint, hx, specFirstMatch, List.find?_cons, specRuleMatches_eq, ih]

/-- Claim C1 fails as stated: with a matching rule whose targetHost is the
empty string, the resolver does not return that rule's target but falls
back to the Host header, because the empty string collides with the falsy
no-match sentinel in determine_target_endpoint. Here the first (and only)
rule matches the parsed document and has target ("", 42), yet resolution
returns ("hh", 7) from the Host header. -/
theorem c1_first_match_counterexample :
    determine_target_endpoint (fun _ => some (Json.obj [("f", Json.str "v")]))
      [("e1", EndpointRule.mk "f" "v" "" 42)] ("Host: hh:7\r\n\r\nB".toList) false =
      some ("hh", 7) ∧
    specRuleMatches [("f", Json.str "v")] (EndpointRule.mk "f" "v" "" 42) = true ∧
    some (("hh" : String), (7 : Int)) ≠
      some ((EndpointRule.mk "f" "v" "" 42).target_host,
        (EndpointRule.mk "f" "v" "" 42).target_port) := by
  refine ⟨?_, ?_, ?_⟩ <;> decide

/-- Claim C1 (amended): for every regular-path input whose bytes split on
the first CRLF CRLF and whose body parses as a key/value document, the
resolver evaluates the table in insertion order and returns the
targetHost/targetPort of the first rule whose matchField is present in the
document with value matchValue, provided that targetHost is non-empty; if
the first matching rule's targetHost is the empty string, or no rule
matches, it falls back to the host and port parsed from the Host header
line. -/
theorem c1_regular_resolution_amended (jsonLoads : Bytes → Option Json)
    (table : EndpointTable) (data hdrs body : Bytes) (kvs : List (String × Json))
    (h1 : splitFirst crlfcrlf data = some (hdrs, body))
    (h2 : jsonLoads body = some (Json.obj kvs)) :
    determine_target_endpoint jsonLoads table data false =
      match specFirstMatch table kvs with
      | some cfg =>
        if cfg.target_host = "" then parse_host_header (findHostLine hdrs)
        else some (cfg.target_host, cfg.target_port)
      | none => parse_host_header (findHostLine hdrs) := by
  simp only [determine_target_endpoint, h1, h2, find_target_endpoint_obj, if_false]
  cases specFirstMatch table kvs with
  | none => simp
  | some cfg => simp

theorem c1_regular_resolution_amended_witness :
    determine_target_endpoint (fun _ => some (Json.obj [("f", Json.str "v")]))
      [("e1", EndpointRule.mk "f" "v" "bk" 9)] ("Host: hh:7\r\n\r\nB".toList) false =
      match specFirstMatch [("e1", EndpointRule.mk "f" "v" "bk" 9)] [("f", Json.str "v")] with
      | some cfg =>
        if cfg.target_host = "" then parse_host_header (findHostLine ("Host: hh:7".toList))
        else some (cfg.target_host, cfg.target_port)
      | none => parse_host_header (findHostLine ("Host: hh:7".toList)) :=
  c1_regular_resolution_amended (fun _ => some (Json.obj [("f", Json.str "v")]))
    [("e1", EndpointRule.mk "f" "v" "bk" 9)] ("Host: hh:7\r\n\r\nB".toList)
    ("Host: hh:7".toList) ("B".toList) [("f", Json.str "v")] (by decide) rfl

/-- Claim C9: when the initial read is non-empty, the target resolves to a
truthy host, and the backend dial fails, the Connection Handler closes the
client socket having forwarded zero bytes in either direction (the initial
bytes are never sent and the relay never runs), after exactly one dial
attempt and no retry; the handler is a total function, so the failure
cannot propagate beyond it. -/
theorem c9_dial_failure_closes (jsonLoads : Bytes → Option Json) (table : EndpointTable)
    (data : Bytes) (th : String) (tp : Int)
    (cregular bregular : List Bytes) (cstream bstream : List ReadRes)
    (hdata : data ≠ [])
    (hres : determine_target_endpoint jsonLoads table data (is_stream data) = some (th, tp))
    (hth : th ≠ "") :
    handle_client jsonLoads table data false cregular bregular cstream bstream =
      ⟨1, false, [], true⟩ := by
  simp [handle_client, hdata, hres, hth]

theorem c9_dial_failure_closes_witness :
    handle_client (fun _ => some (Json.obj [("f", Json.str "v")]))
      [("e1", EndpointRule.mk "f" "v" "bk" 9)] ("Host: hh:7\r\n\r\nB".toList)
      false [] [] [] [] = ⟨1, false, [], true⟩ :=
  c9_dial_failure_closes (fun _ => some (Json.obj [("f", Json.str "v")]))
    [("e1", EndpointRule.mk "f" "v" "bk" 9)] ("Host: hh:7\r\n\r\nB".toList) "bk" 9
    [] [] [] [] (by decide) (by decide) (by decide)
